import Mathlib

set_option maxHeartbeats 1000000

/- Shallow embedding of src/download.py (civitai-downloader).
   Python strings are modelled as `List Char`; raw bytes of a response body are
   modelled as `List Nat`.  Effectful statements (prints, file writes, directory
   creation, archive extraction) are modelled as explicit traces of `Op` events,
   and the outcome of fallible external calls (the HTTP fetch, the archive
   extraction) is passed in as an `Except`/`Option` argument. -/

abbrev Str := List Char

/-- Characters stripped by Python's argument-less `str.strip()` (ASCII whitespace). -/
def pyIsSpace (c : Char) : Bool :=
  c = ' ' || c = '\t' || c = '\n' || c = '\r' || c = '\x0b' || c = '\x0c'

/-- Python `s.strip(chars)`: drop leading and trailing characters satisfying `p`. -/
def pyStripP (p : Char → Bool) (s : Str) : Str :=
  ((s.dropWhile p).reverse.dropWhile p).reverse

/-- Python `s.split(sep)` for a one-character separator `sep` (as used with
`"/"`, `"?"` and `","` in download.py): no empty pieces are dropped. -/
def splitChar (c : Char) : Str → List Str
  | [] => [[]]
  | x :: xs =>
    if x = c then [] :: splitChar c xs
    else
      match splitChar c xs with
      | [] => [[x]]
      | h :: t => (x :: h) :: t

/-- Python `sep in s` (substring containment), for use with `"filename=" in cd`. -/
def containsSub (sep : Str) : Str → Bool
  | [] => sep.isEmpty
  | x :: xs => sep.isPrefixOf (x :: xs) || containsSub sep xs

/-- Fuel-indexed worker for Python `s.split(sep)` with a multi-character
separator.  The fuel argument makes the recursion structural; `pySplitSub`
instantiates it with `s.length`, which is sufficient whenever `sep ≠ []`
(download.py only splits on the non-empty separator `"filename="`). -/
def splitSubAux (sep : Str) : Nat → Str → List Str
  | _, [] => [[]]
  | 0, x :: xs => [x :: xs]
  | fuel + 1, x :: xs =>
    if sep.isPrefixOf (x :: xs) then
      [] :: splitSubAux sep fuel ((x :: xs).drop sep.length)
    else
      match splitSubAux sep fuel xs with
      | [] => [[x]]
      | h :: t => (x :: h) :: t

/-- Python `s.split(sep)` for a non-empty (possibly multi-character) separator. -/
def pySplitSub (sep s : Str) : List Str := splitSubAux sep s.length s

/-- The separator string `"filename="` used on line 84/85 of download.py. -/
def filenameKey : Str := "filename=".data

/-- Lines 82-85 of download.py: the filename taken from the Content-Disposition
header, when the header is present (truthy) and contains `"filename="`; the
value is `cd.split("filename=")[1].strip('"')`.  A `none` result (header absent,
no `filename=` inside it, or the stripped value empty, i.e. Python-falsy) sends
the caller to the URL fallback of lines 87-88. -/
def extractCDFilename (cd : Option Str) : Option Str :=
  match cd with
  | none => none
  | some s =>
    if !s.isEmpty && containsSub filenameKey s then
      let f := pyStripP (fun c => c = '"') ((pySplitSub filenameKey s).getD 1 [])
      if f.isEmpty then none else some f
    else none

/-- Lines 82-88 of download.py: filename resolution for a response.
`url` is the final post-redirect URL `r.url`; the fallback is
`r.url.split("/")[-1].split("?")[0]`. -/
def resolveFilename (cd : Option Str) (url : Str) : Str :=
  match extractCDFilename cd with
  | some f => f
  | none => (splitChar '?' ((splitChar '/' url).getLastD [])).headD []

/-- The suffix of `s` after the last occurrence of `c` (all of `s` if `c` does
not occur).  Used only to state the specification's reading of "the last path
segment of the final URL". -/
def afterLast (c : Char) : Str → Str
  | [] => []
  | x :: xs => if c ∈ xs then afterLast c xs else if x = c then xs else x :: xs

/-- Modelled from the spec: "the output filename must equal the last path
segment of the final (post-redirect) URL with any query string removed" —
the segment after the last `/`, truncated at the first `?`. -/
def specURLFilename (url : Str) : Str :=
  (afterLast '/' url).takeWhile (fun c => c != '?')

example : pySplitSub filenameKey "attachment; filename=\"x.zip\"".data =
    ["attachment; ".data, "\"x.zip\"".data] := by decide

example : resolveFilename (some "attachment; filename=\"x.zip\"".data)
    "https://h/a/b.bin?tok=1".data = "x.zip".data := by decide

example : resolveFilename none "https://h/a/b.bin?tok=1".data = "b.bin".data := by decide

example : specURLFilename "https://h/a/b.bin?tok=1".data = "b.bin".data := by decide

/-- Python `os.path.join(a, b)` (posixpath): `b` if `b` is absolute, else `a`
and `b` joined with a single `/` inserted when needed. -/
def pathJoin (a b : Str) : Str :=
  if b.headD ' ' = '/' && !b.isEmpty then b
  else if a.isEmpty || a.getLastD ' ' = '/' then a ++ b
  else a ++ '/' :: b

/-- Line 118 of download.py: `output_file.endswith(".zip")`. -/
def endsWithZip (s : Str) : Bool := ".zip".data.isSuffixOf s

/-- The response object `r` of the `requests.get` call in download_file, after
redirects: status code and reason, the `Content-Disposition` header (absent or
its string value), the final URL `r.url`, the parsed `Content-Length` header
(absent when the server declares no length), and the body bytes. -/
structure HttpResponse where
  status : Nat
  reason : Str
  contentDisposition : Option Str
  url : Str
  contentLength : Option Nat
  body : List Nat

/-- Line 13 of download.py: `CHUNK_SIZE = 1638400`. -/
def CHUNK_SIZE : Nat := 1638400

/-- The alphabet of effects performed by download.py that the claims talk
about.  `deleteFile` and `mkdirParents` are part of the alphabet so that the
absence of a deletion or of a directory creation is expressible as a statement
about traces; download_file itself never emits `deleteFile` (there is no
file-removal call anywhere in download.py). -/
inductive Op where
  | openWrite (path : Str)
  | write (path : Str) (chunk : List Nat)
  | progress (filename : Str)
  | tryExtract (path : Str)
  | reportExtractError (e : Str)
  | deleteFile (path : Str)
  | mkdirParents (path : Str)
  | promptUser
  | writeTokenFile (tok : Str)
  | printAnnounce (modelId : Str)
  | printError (modelId : Str) (e : Str)
  deriving DecidableEq

/-- Fuel-indexed worker for `r.iter_content(chunk_size=C)` on a fully received
body: the body cut into successive `take C` pieces.  Fuel `body.length` is
sufficient whenever `C ≥ 1`. -/
def chunksOfAux (C : Nat) : Nat → List Nat → List (List Nat)
  | _, [] => []
  | 0, b :: bs => [b :: bs]
  | fuel + 1, b :: bs => (b :: bs).take C :: chunksOfAux C fuel ((b :: bs).drop C)

/-- `r.iter_content(chunk_size=C)`: the chunks yielded for a body. -/
def chunksOf (C : Nat) (body : List Nat) : List (List Nat) := chunksOfAux C body.length body

/-- Lines 95-109 of download.py: the streaming loop.  For each yielded chunk,
`if chunk:` guards the write and the progress-line redraw; the progress line is
rendered only when `total_size` is truthy (nonzero). -/
def streamLoop (C totalSize : Nat) (outputFile filename : Str) (body : List Nat) : List Op :=
  (chunksOf C body).flatMap fun chunk =>
    if chunk.isEmpty then []
    else Op.write outputFile chunk ::
      (if totalSize ≠ 0 then [Op.progress filename] else [])

/-- Line 90 of download.py: `output_file = os.path.join(output_path, filename)`
with the filename of lines 82-88. -/
def outputFileOf (outputPath : Str) (r : HttpResponse) : Str :=
  pathJoin outputPath (resolveFilename r.contentDisposition r.url)

/-- Lines 76-79 of download.py: `r.raise_for_status()` raises exactly for a
4xx or 5xx status code. -/
def httpFailed (r : HttpResponse) : Bool :=
  400 ≤ r.status && r.status < 600

/-- Line 79 of download.py: `f"HTTP Error {r.status_code}: {r.reason}"`. -/
def httpErrMsg (r : HttpResponse) : Str :=
  "HTTP Error ".data ++ (toString r.status).data ++ ": ".data ++ r.reason

/-- Lines 117-124 of download.py: the extraction step.  When the destination
file name ends in `.zip` the extraction is attempted; a failure is caught and
reported (`ERROR: Failed to unzip file: {e}`), never re-raised, and no file is
removed. -/
def zipOps (outputFile : Str) (er : Except Str Unit) : List Op :=
  if endsWithZip outputFile then
    Op.tryExtract outputFile ::
      (match er with
       | .ok _ => []
       | .error e => [Op.reportExtractError e])
  else []

/-- Lines 81-124 of download.py: the effects of a successful (non-raising)
download_file run: open the destination with `"wb"`, stream the body, then the
extraction step. -/
def okOps (outputPath : Str) (r : HttpResponse) (er : Except Str Unit) : List Op :=
  Op.openWrite (outputFileOf outputPath r) ::
    (streamLoop CHUNK_SIZE (r.contentLength.getD 0) (outputFileOf outputPath r)
      (resolveFilename r.contentDisposition r.url) r.body ++
    zipOps (outputFileOf outputPath r) er)

/-- Lines 66-124 of download.py.  `fetched` is the outcome of the
`requests.get` call (`.error` = the call itself raised, e.g. a connection
error); `er` is the outcome of `zipfile.ZipFile(...).extractall(...)`.
The function raises (returns `.error`) exactly when the fetch raised or
`raise_for_status` fired (re-raised on line 79 as
`"HTTP Error {status}: {reason}"`). -/
def download_file (outputPath : Str) (fetched : Except Str HttpResponse)
    (er : Except Str Unit) : Except Str (List Op) :=
  match fetched with
  | .error e => .error e
  | .ok r =>
    if httpFailed r then .error (httpErrMsg r)
    else .ok (okOps outputPath r er)

/-- The chunks written to the destination file in a trace. -/
def writeChunks (ops : List Op) : List (List Nat) :=
  ops.filterMap fun op => match op with | .write _ ch => some ch | _ => none

/-- The bytes that end up in the destination file (writes are sequential and
the file is opened with mode `"wb"`, i.e. truncated). -/
def writtenBytes (ops : List Op) : List Nat := (writeChunks ops).flatten

/-- The number of `f.write` calls in a trace. -/
def writeCount (ops : List Op) : Nat := (writeChunks ops).length

/-- `true` when the trace contains no file deletion. -/
def opsDeleteFree (ops : List Op) : Bool :=
  ops.all fun op => match op with | .deleteFile _ => false | _ => true

/-- `true` when the trace contains a directory-creation call. -/
def hasMkdir (ops : List Op) : Bool :=
  ops.any fun op => match op with | .mkdirParents _ => true | _ => false

/-- `true` when the trace contains a progress-line redraw. -/
def hasProgress (ops : List Op) : Bool :=
  ops.any fun op => match op with | .progress _ => true | _ => false

/-- A file system: each path maps to `none` (absent) or its byte content. -/
def FS : Type := Str → Option (List Nat)

/-- Effect of a single trace event on the file system: `open(p, "wb")`
truncates/creates, `f.write` appends; prints, prompts and extraction attempts
leave the file system of downloaded files unchanged. -/
def applyOp (fs : FS) : Op → FS
  | .openWrite p => fun q => if q = p then some [] else fs q
  | .write p ch => fun q => if q = p then some ((fs p).getD [] ++ ch) else fs q
  | .deleteFile p => fun q => if q = p then none else fs q
  | _ => fs

/-- Running a trace over a file system. -/
def execOps (fs : FS) (ops : List Op) : FS := ops.foldl applyOp fs

/-- One full run of download_file against a file system: on an exception no
file of the output directory was touched (the raise happens before `open`). -/
def runDownloadFS (outputPath : Str) (fetched : Except Str HttpResponse)
    (extractRes : Except Str Unit) (fs : FS) : FS :=
  match download_file outputPath fetched extractRes with
  | .error _ => fs
  | .ok ops => execOps fs ops

/-- Python truthiness of an optional string (`None` and `""` are falsy). -/
def strTruthy : Option Str → Bool
  | none => false
  | some t => !t.isEmpty

/-- Lines 40-49 of download.py.  `env` is `os.getenv(DEFAULT_ENV_NAME, None)`;
`fileRead` is the outcome of reading TOKEN_FILE (`none` = any exception while
opening or reading).  The file branch returns `file.read().strip()`. -/
def get_token (env : Option Str) (fileRead : Option Str) : Option Str :=
  if strTruthy env then env
  else
    match fileRead with
    | some content => some (pyStripP pyIsSpace content)
    | none => none

deriving instance DecidableEq for Except

example : get_token (some "tok".data) (some "ignored".data) = some "tok".data := by decide
example : get_token (some []) (some " filetok\n".data) = some "filetok".data := by decide
example : get_token none none = none := by decide
example : download_file "/out".data
    (.ok ⟨404, "Not Found".data, none, "u".data, none, []⟩) (.ok ()) =
    .error "HTTP Error 404: Not Found".data := by decide

/-- The two positional arguments declared by get_args (lines 20-37 of
download.py): `model_id` and `output_path`. -/
structure Args where
  model_id : Str
  output_path : Str
  deriving DecidableEq

/-- An argv token that argparse treats as an optional-argument flag rather
than a positional value: it starts with `-` and has at least two characters. -/
def looksLikeOption (a : Str) : Bool :=
  match a with
  | '-' :: _ :: _ => true
  | _ => false

/-- Lines 20-37 of download.py: the argparse parser declares exactly the two
positional string arguments `model_id` and `output_path` and no optional
arguments.  `argv` is `sys.argv[1:]`.  `none` models an argparse parse error
(unrecognized flag such as `--no-extract`, or a wrong number of positionals),
on which argparse exits the process with status 2. -/
def get_args (argv : List Str) : Option Args :=
  if argv.all fun a => !looksLikeOption a then
    match argv with
    | [m, o] => some ⟨m, o⟩
    | _ => none
  else none

/-- Line 137 of download.py:
`[mid.strip() for mid in args.model_id.split(',') if mid.strip()]`. -/
def splitIds (s : Str) : List Str :=
  ((splitChar ',' s).map (pyStripP pyIsSpace)).filter fun t => !t.isEmpty

/-- The external environment of one process run: the token environment
variable, the result of reading the token file, what the user would type at
the token prompt, and for each model identifier the outcome of its HTTP fetch
and of its archive extraction.  `home` is `Path.home()`. -/
structure World where
  env : Option Str
  tokenFileRead : Option Str
  promptInput : Str
  fetch : Str → Except Str HttpResponse
  extractRes : Str → Except Str Unit
  home : Str

/-- Line 14 of download.py: the parent directory of
`TOKEN_FILE = Path.home() / '.civitai' / 'config'`. -/
def TOKEN_DIR (home : Str) : Str := pathJoin home ".civitai".data

/-- Lines 52-62 of download.py: prompt_for_civitai_token reads the token from
standard input and store_token creates `TOKEN_FILE.parent` (with parents) and
writes the token file. -/
def promptOps (home : Str) (tok : Str) : List Op :=
  [Op.promptUser, Op.mkdirParents (TOKEN_DIR home), Op.writeTokenFile tok]

/-- Lines 131-134 of download.py: `token = get_token()` followed by
`if not token: token = prompt_for_civitai_token()`.  Returns the token used
for the batch and the effects of the prompt (empty when no prompt happens). -/
def mainTokenAndOps (w : World) : Str × List Op :=
  let t := get_token w.env w.tokenFileRead
  if strTruthy t then (t.getD [], [])
  else (w.promptInput, promptOps w.home w.promptInput)

/-- Lines 139-144 of download.py: one iteration of the batch loop — announce
the model id, call download_file, and catch any exception, printing
`ERROR downloading model {model_id}: {e}`. -/
def batchStep (w : World) (outputPath : Str) (mid : Str) : List Op :=
  Op.printAnnounce mid ::
    match download_file outputPath (w.fetch mid) (w.extractRes mid) with
    | .ok ops => ops
    | .error e => [Op.printError mid e]

/-- Lines 129-144 of download.py: the whole of main().  `none` models the
argparse error exit; otherwise the trace of the run.  Note that main never
creates or checks the output directory. -/
def mainOps (argv : List Str) (w : World) : Option (List Op) :=
  match get_args argv with
  | none => none
  | some args =>
    let tok := mainTokenAndOps w
    some (tok.2 ++ (splitIds args.model_id).flatMap (batchStep w args.output_path))

/-- The process exit status: argparse exits with 2 on a parse error; otherwise
main() returns normally (every per-model exception is caught inside the loop)
and the process exits 0. -/
def mainExitCode (argv : List Str) (w : World) : Nat :=
  match mainOps argv w with
  | none => 2
  | some _ => 0

example : get_args ["46846".data, "/out".data] = some ⟨"46846".data, "/out".data⟩ := by decide
example : get_args ["46846".data, "/out".data, "--no-extract".data] = none := by decide
example : splitIds " 1535275, 1188894 ,,1122976 ".data =
    ["1535275".data, "1188894".data, "1122976".data] := by decide

/- Lemmas about the chunking of a body by iter_content. -/

theorem chunksOfAux_flatten (C : Nat) (hC : 1 ≤ C) :
    ∀ (fuel : Nat) (s : List Nat), s.length ≤ fuel → (chunksOfAux C fuel s).flatten = s := by
  intro fuel
  induction fuel with
  | zero =>
    intro s hs
    cases s with
    | nil => rfl
    | cons b bs => simp at hs
  | succ fuel ih =>
    intro s hs
    cases s with
    | nil => rfl
    | cons b bs =>
      have hlen : ((b :: bs).drop C).length ≤ fuel := by
        simp only [List.length_drop, List.length_cons] at *
        omega
      simp only [chunksOfAux, List.flatten_cons]
      rw [ih _ hlen, List.take_append_drop]

theorem chunksOfAux_mem_ne_nil (C : Nat) (hC : 1 ≤ C) :
    ∀ (fuel : Nat) (s : List Nat), s.length ≤ fuel →
      ∀ ch ∈ chunksOfAux C fuel s, ch ≠ [] := by
  intro fuel
  induction fuel with
  | zero =>
    intro s hs ch hch
    cases s with
    | nil => simp [chunksOfAux] at hch
    | cons b bs => simp at hs
  | succ fuel ih =>
    intro s hs ch hch
    cases s with
    | nil => simp [chunksOfAux] at hch
    | cons b bs =>
      simp only [chunksOfAux, List.mem_cons] at hch
      rcases hch with h | h
      · subst h
        obtain ⟨D, rfl⟩ : ∃ D, C = D + 1 := ⟨C - 1, by omega⟩
        simp [List.take]
      · have hlen : ((b :: bs).drop C).length ≤ fuel := by
          simp only [List.length_drop, List.length_cons] at *
          omega
        exact ih _ hlen ch h

theorem chunksOfAux_length (C : Nat) (hC : 1 ≤ C) :
    ∀ (fuel : Nat) (s : List Nat), s.length ≤ fuel →
      (chunksOfAux C fuel s).length = (s.length + C - 1) / C := by
  intro fuel
  induction fuel with
  | zero =>
    intro s hs
    cases s with
    | nil =>
      simp only [chunksOfAux, List.length_nil]
      rw [Nat.div_eq_of_lt (by omega)]
    | cons b bs => simp at hs
  | succ fuel ih =>
    intro s hs
    cases s with
    | nil =>
      simp only [chunksOfAux, List.length_nil]
      rw [Nat.div_eq_of_lt (by omega)]
    | cons b bs =>
      have hlen : ((b :: bs).drop C).length ≤ fuel := by
        simp only [List.length_drop, List.length_cons] at *
        omega
      simp only [chunksOfAux, List.length_cons, ih _ hlen, List.length_drop]
      have hr : bs.length + 1 + C - 1 = bs.length + C := by omega
      rw [hr, Nat.add_div_right _ (by omega)]
      by_cases hbig : C ≤ bs.length
      · have h1 : bs.length + 1 - C + C - 1 = bs.length := by omega
        rw [h1]
      · have h1 : bs.length + 1 - C + C - 1 = C - 1 := by omega
        rw [h1, Nat.div_eq_of_lt (by omega), Nat.div_eq_of_lt (by omega)]

theorem writeChunks_append (a b : List Op) :
    writeChunks (a ++ b) = writeChunks a ++ writeChunks b := by
  simp [writeChunks, List.filterMap_append]

theorem writeChunks_streamLoop (C tot : Nat) (p f : Str) (body : List Nat) :
    writeChunks (streamLoop C tot p f body) =
      (chunksOf C body).filter fun ch => !ch.isEmpty := by
  unfold streamLoop
  generalize chunksOf C body = l
  induction l with
  | nil => rfl
  | cons ch l ih =>
    rw [List.flatMap_cons, writeChunks_append, ih, List.filter_cons]
    by_cases hch : ch.isEmpty
    · simp [hch, writeChunks]
    · by_cases htot : tot = 0 <;>
        simp [hch, htot, writeChunks, List.filterMap_cons]

theorem flatten_filter_ne_nil (l : List (List Nat)) :
    (l.filter fun ch => !ch.isEmpty).flatten = l.flatten := by
  induction l with
  | nil => rfl
  | cons ch l ih =>
    rw [List.filter_cons]
    by_cases hch : ch.isEmpty
    · have : ch = [] := by simpa [List.isEmpty_iff] using hch
      simp [hch, ih, this]
    · simp [hch, ih]

theorem writtenBytes_streamLoop (C tot : Nat) (p f : Str) (body : List Nat) (hC : 1 ≤ C) :
    writtenBytes (streamLoop C tot p f body) = body := by
  rw [writtenBytes, writeChunks_streamLoop, flatten_filter_ne_nil]
  exact chunksOfAux_flatten C hC body.length body le_rfl

theorem writeCount_streamLoop (C tot : Nat) (p f : Str) (body : List Nat) (hC : 1 ≤ C) :
    writeCount (streamLoop C tot p f body) = (body.length + C - 1) / C := by
  rw [writeCount, writeChunks_streamLoop]
  have hall : ∀ ch ∈ chunksOf C body, (!ch.isEmpty) = true := by
    intro ch hch
    have := chunksOfAux_mem_ne_nil C hC body.length body le_rfl ch hch
    simpa [List.isEmpty_iff] using this
  rw [List.filter_eq_self.mpr hall]
  exact chunksOfAux_length C hC body.length body le_rfl

theorem writeChunks_zipOps (outputFile : Str) (er : Except Str Unit) :
    writeChunks (zipOps outputFile er) = [] := by
  unfold zipOps
  split
  · cases er <;> rfl
  · rfl

/-- The successful-case shape of a download_file trace. -/
theorem download_file_ok_shape (out : Str) (r : HttpResponse) (er : Except Str Unit)
    (ops : List Op) (h : download_file out (.ok r) er = .ok ops) :
    ops = okOps out r er := by
  simp only [download_file] at h
  by_cases hst : httpFailed r = true
  · rw [if_pos hst] at h
    exact absurd h (by simp)
  · rw [if_neg hst] at h
    exact (Except.ok.inj h).symm

theorem writeChunks_okOps (out : Str) (r : HttpResponse) (er : Except Str Unit) :
    writeChunks (okOps out r er) =
      writeChunks (streamLoop CHUNK_SIZE (r.contentLength.getD 0) (outputFileOf out r)
        (resolveFilename r.contentDisposition r.url) r.body) := by
  have h := writeChunks_zipOps (outputFileOf out r) er
  unfold okOps
  unfold writeChunks at h ⊢
  simp only [List.filterMap_cons, List.filterMap_append, h, List.append_nil]


/-- C3: for every response body of size S streamed with chunk size C (C ≥ 1),
the streaming loop of download_file writes exactly the S body bytes to the
destination file, in exactly ceil(S/C) = (S + C - 1) / C write calls; in
download_file itself the chunk size is CHUNK_SIZE. -/
theorem c3_stream_exact_bytes_and_ceil_writes :
    (∀ (C tot : Nat) (p f : Str) (body : List Nat), 1 ≤ C →
      writtenBytes (streamLoop C tot p f body) = body ∧
      writeCount (streamLoop C tot p f body) = (body.length + C - 1) / C) ∧
    (∀ (out : Str) (r : HttpResponse) (er : Except Str Unit) (ops : List Op),
      download_file out (.ok r) er = .ok ops →
      writtenBytes ops = r.body ∧
      writeCount ops = (r.body.length + CHUNK_SIZE - 1) / CHUNK_SIZE) := by
  have hcs : 1 ≤ CHUNK_SIZE := by norm_num [CHUNK_SIZE]
  constructor
  · intro C tot p f body hC
    exact ⟨writtenBytes_streamLoop C tot p f body hC,
           writeCount_streamLoop C tot p f body hC⟩
  · intro out r er ops h
    rw [download_file_ok_shape out r er ops h, writtenBytes, writeCount, writeChunks_okOps,
      ← writeCount, ← writtenBytes, writtenBytes_streamLoop _ _ _ _ _ hcs,
      writeCount_streamLoop _ _ _ _ _ hcs]
    exact ⟨rfl, rfl⟩

/-- Witness for c3_stream_exact_bytes_and_ceil_writes at concrete inputs:
a 3-byte body with chunk size 2, and a full download_file run. -/
theorem c3_witness :
    (writtenBytes (streamLoop 2 3 "/o/m.bin".data "m.bin".data [1, 2, 3]) = [1, 2, 3] ∧
     writeCount (streamLoop 2 3 "/o/m.bin".data "m.bin".data [1, 2, 3]) = 2) ∧
    (writtenBytes (okOps "/o".data ⟨200, "OK".data, none, "https://h/m.bin".data, some 2, [7, 8]⟩ (.ok ())) = [7, 8] ∧
     writeCount (okOps "/o".data ⟨200, "OK".data, none, "https://h/m.bin".data, some 2, [7, 8]⟩ (.ok ())) = 1) := by
  constructor
  · exact c3_stream_exact_bytes_and_ceil_writes.1 2 3 "/o/m.bin".data "m.bin".data [1, 2, 3] (by decide)
  · exact c3_stream_exact_bytes_and_ceil_writes.2 "/o".data
      ⟨200, "OK".data, none, "https://h/m.bin".data, some 2, [7, 8]⟩ (.ok ())
      (okOps "/o".data ⟨200, "OK".data, none, "https://h/m.bin".data, some 2, [7, 8]⟩ (.ok ()))
      (by decide)

/-- Every event of the streaming loop is a write to the destination file or a
progress redraw. -/
theorem streamLoop_mem (C tot : Nat) (p f : Str) (body : List Nat) (op : Op)
    (h : op ∈ streamLoop C tot p f body) :
    (∃ ch, op = Op.write p ch) ∨ op = Op.progress f := by
  unfold streamLoop at h
  rw [List.mem_flatMap] at h
  obtain ⟨ch, _, hop⟩ := h
  by_cases hch : ch.isEmpty
  · rw [if_pos hch] at hop
    simp at hop
  · rw [if_neg hch] at hop
    rcases List.mem_cons.mp hop with h1 | h1
    · exact Or.inl ⟨ch, h1⟩
    · by_cases htot : tot ≠ 0
      · rw [if_pos htot] at h1
        right
        simpa using h1
      · rw [if_neg htot] at h1
        simp at h1

/-- Every event of the extraction step is the attempt or the failure report. -/
theorem zipOps_mem (p : Str) (er : Except Str Unit) (op : Op)
    (h : op ∈ zipOps p er) :
    op = Op.tryExtract p ∨ ∃ e, op = Op.reportExtractError e := by
  unfold zipOps at h
  split at h
  · rcases List.mem_cons.mp h with h1 | h1
    · exact Or.inl h1
    · cases er with
      | ok u => simp at h1
      | error e =>
        right
        exact ⟨e, by simpa using h1⟩
  · simp at h

/-- Every event of a successful download_file run is the open, a write, a
progress redraw, the extraction attempt, or the extraction failure report. -/
theorem okOps_mem (out : Str) (r : HttpResponse) (er : Except Str Unit) (op : Op)
    (h : op ∈ okOps out r er) :
    op = Op.openWrite (outputFileOf out r) ∨
    (∃ ch, op = Op.write (outputFileOf out r) ch) ∨
    op = Op.progress (resolveFilename r.contentDisposition r.url) ∨
    op = Op.tryExtract (outputFileOf out r) ∨
    (∃ e, op = Op.reportExtractError e) := by
  unfold okOps at h
  rcases List.mem_cons.mp h with h1 | h1
  · exact Or.inl h1
  · rcases List.mem_append.mp h1 with h2 | h2
    · rcases streamLoop_mem _ _ _ _ _ _ h2 with h3 | h3
      · exact Or.inr (Or.inl h3)
      · exact Or.inr (Or.inr (Or.inl h3))
    · rcases zipOps_mem _ _ _ h2 with h3 | h3
      · exact Or.inr (Or.inr (Or.inr (Or.inl h3)))
      · exact Or.inr (Or.inr (Or.inr (Or.inr h3)))

theorem okOps_deleteFree (out : Str) (r : HttpResponse) (er : Except Str Unit) :
    opsDeleteFree (okOps out r er) = true := by
  rw [opsDeleteFree, List.all_eq_true]
  intro op hop
  rcases okOps_mem out r er op hop with h | ⟨ch, h⟩ | h | h | ⟨e, h⟩ <;> subst h <;> rfl

/-- C7: when the destination file is a `.zip` and extraction fails, the
failure is reported (`ERROR: Failed to unzip file`), no exception escapes
download_file (it still returns normally), and no event of the run deletes a
file — the downloaded archive is retained. -/
theorem c7_extract_failure_reported_no_delete_no_raise :
    ∀ (out : Str) (r : HttpResponse) (e : Str),
      httpFailed r = false →
      endsWithZip (outputFileOf out r) = true →
      ∃ ops, download_file out (.ok r) (.error e) = .ok ops ∧
        Op.reportExtractError e ∈ ops ∧ opsDeleteFree ops = true := by
  intro out r e hst hzip
  refine ⟨okOps out r (.error e), ?_, ?_, okOps_deleteFree out r (.error e)⟩
  · simp [download_file, hst]
  · unfold okOps
    apply List.mem_cons_of_mem
    apply List.mem_append_right
    unfold zipOps
    rw [if_pos hzip]
    exact List.mem_cons_of_mem _ (by simp)

/-- Witness for c7_extract_failure_reported_no_delete_no_raise: a 200 response
whose resolved filename is `x.zip`, with a failing extraction. -/
theorem c7_witness :
    httpFailed ⟨200, "OK".data, none, "https://h/x.zip".data, some 1, [9]⟩ = false ∧
    endsWithZip (outputFileOf "/o".data ⟨200, "OK".data, none, "https://h/x.zip".data, some 1, [9]⟩) = true ∧
    ∃ ops, download_file "/o".data
        (.ok ⟨200, "OK".data, none, "https://h/x.zip".data, some 1, [9]⟩)
        (.error "File is not a zip file".data) = .ok ops ∧
      Op.reportExtractError "File is not a zip file".data ∈ ops ∧
      opsDeleteFree ops = true := by
  refine ⟨by decide, by decide, ?_⟩
  exact c7_extract_failure_reported_no_delete_no_raise "/o".data
    ⟨200, "OK".data, none, "https://h/x.zip".data, some 1, [9]⟩
    "File is not a zip file".data (by decide) (by decide)

theorem hasProgress_eq_false_of_no_progress (ops : List Op)
    (h : ∀ f, Op.progress f ∉ ops) : hasProgress ops = false := by
  rw [hasProgress]
  rw [List.any_eq_false]
  intro op hop
  cases op with
  | progress f => exact absurd hop (h f)
  | _ => simp

theorem streamLoop_zero_no_progress (C : Nat) (p f : Str) (body : List Nat) (g : Str) :
    Op.progress g ∉ streamLoop C 0 p f body := by
  intro h
  unfold streamLoop at h
  rw [List.mem_flatMap] at h
  obtain ⟨ch, _, hop⟩ := h
  by_cases hch : ch.isEmpty
  · rw [if_pos hch] at hop
    simp at hop
  · rw [if_neg hch] at hop
    simp at hop

/-- C8: for a response that declares no Content-Length, download_file renders
no progress line at all, yet still streams every body byte to the destination
file. -/
theorem c8_no_content_length_silent_but_streams :
    ∀ (out : Str) (r : HttpResponse) (er : Except Str Unit) (ops : List Op),
      r.contentLength = none →
      download_file out (.ok r) er = .ok ops →
      hasProgress ops = false ∧ writtenBytes ops = r.body := by
  intro out r er ops hcl h
  have hshape := download_file_ok_shape out r er ops h
  subst hshape
  constructor
  · apply hasProgress_eq_false_of_no_progress
    intro f hf
    rcases okOps_mem out r er _ hf with h1 | ⟨ch, h1⟩ | h1 | h1 | ⟨e, h1⟩
    · exact absurd h1 (by simp)
    · exact absurd h1 (by simp)
    · -- the progress case: impossible because total_size = 0
      rw [h1] at hf
      unfold okOps at hf
      rcases List.mem_cons.mp hf with h2 | h2
      · simp at h2
      · rcases List.mem_append.mp h2 with h3 | h3
        · rw [hcl] at h3
          exact absurd h3 (streamLoop_zero_no_progress _ _ _ _ _)
        · rcases zipOps_mem _ _ _ h3 with h4 | ⟨e, h4⟩ <;> simp at h4
    · exact absurd h1 (by simp)
    · exact absurd h1 (by simp)
  · rw [writtenBytes, writeChunks_okOps, ← writtenBytes]
    exact writtenBytes_streamLoop _ _ _ _ _ (by norm_num [CHUNK_SIZE])

/-- Witness for c8_no_content_length_silent_but_streams: a 200 response with
no Content-Length header and a two-byte body. -/
theorem c8_witness :
    hasProgress (okOps "/o".data ⟨200, "OK".data, none, "https://h/m.bin".data, none, [5, 6]⟩ (.ok ())) = false ∧
    writtenBytes (okOps "/o".data ⟨200, "OK".data, none, "https://h/m.bin".data, none, [5, 6]⟩ (.ok ())) = [5, 6] := by
  exact c8_no_content_length_silent_but_streams "/o".data
    ⟨200, "OK".data, none, "https://h/m.bin".data, none, [5, 6]⟩ (.ok ())
    (okOps "/o".data ⟨200, "OK".data, none, "https://h/m.bin".data, none, [5, 6]⟩ (.ok ()))
    rfl (by decide)

theorem execOps_append (fs : FS) (a b : List Op) :
    execOps fs (a ++ b) = execOps (execOps fs a) b := by
  unfold execOps
  exact List.foldl_append applyOp fs a b

theorem execOps_cons (fs : FS) (op : Op) (ops : List Op) :
    execOps fs (op :: ops) = execOps (applyOp fs op) ops := rfl

/-- An event that can only change the file at path `p`. -/
def opTouchesOnly (p : Str) (op : Op) : Prop :=
  ∀ (fs : FS) (q : Str), q ≠ p → applyOp fs op q = fs q

theorem execOps_preserve (p : Str) :
    ∀ (ops : List Op), (∀ op ∈ ops, opTouchesOnly p op) →
      ∀ (fs : FS) (q : Str), q ≠ p → execOps fs ops q = fs q := by
  intro ops
  induction ops with
  | nil => intro _ fs q _; rfl
  | cons op ops ih =>
    intro h fs q hq
    rw [execOps_cons, ih (fun o ho => h o (List.mem_cons_of_mem _ ho)) _ _ hq]
    exact h op (List.mem_cons_self _ _) fs q hq

theorem execOps_stream_at (p f : Str) (tot : Nat) :
    ∀ (l : List (List Nat)) (fs : FS) (pre : List Nat), fs p = some pre →
      execOps fs (l.flatMap fun chunk =>
          if chunk.isEmpty then []
          else Op.write p chunk :: (if tot ≠ 0 then [Op.progress f] else [])) p =
        some (pre ++ l.flatten) := by
  intro l
  induction l with
  | nil =>
    intro fs pre h
    simpa [execOps] using h
  | cons ch l ih =>
    intro fs pre h
    rw [List.flatMap_cons, execOps_append]
    by_cases hch : ch.isEmpty
    · have hch' : ch = [] := by simpa [List.isEmpty_iff] using hch
      rw [if_pos hch]
      have : execOps fs [] = fs := rfl
      rw [this, ih fs pre h, hch']
      simp
    · rw [if_neg hch, execOps_cons]
      have hstep : ∀ fs2 : FS, execOps fs2 (if tot ≠ 0 then [Op.progress f] else []) = fs2 := by
        intro fs2
        split <;> rfl
      rw [hstep]
      have hat : applyOp fs (Op.write p ch) p = some (pre ++ ch) := by
        simp [applyOp, h]
      rw [ih _ _ hat, List.flatten_cons, List.append_assoc]

theorem execOps_zipOps (p : Str) (er : Except Str Unit) (fs : FS) :
    execOps fs (zipOps p er) = fs := by
  unfold zipOps
  split
  · cases er <;> rfl
  · rfl

theorem execOps_okOps_at (out : Str) (r : HttpResponse) (er : Except Str Unit) (fs : FS) :
    execOps fs (okOps out r er) (outputFileOf out r) = some r.body := by
  unfold okOps
  rw [execOps_cons]
  unfold streamLoop
  rw [execOps_append, execOps_zipOps]
  have hopen : applyOp fs (Op.openWrite (outputFileOf out r)) (outputFileOf out r) = some [] := by
    simp [applyOp]
  rw [execOps_stream_at _ _ _ _ _ [] hopen]
  rw [List.nil_append]
  rw [chunksOf, chunksOfAux_flatten CHUNK_SIZE (by norm_num [CHUNK_SIZE]) _ _ le_rfl]

theorem execOps_okOps_other (out : Str) (r : HttpResponse) (er : Except Str Unit)
    (fs : FS) (q : Str) (hq : q ≠ outputFileOf out r) :
    execOps fs (okOps out r er) q = fs q := by
  apply execOps_preserve (outputFileOf out r) _ _ fs q hq
  intro op hop
  rcases okOps_mem out r er op hop with h | ⟨ch, h⟩ | h | h | ⟨e, h⟩ <;> subst h <;>
    intro fs2 q2 hq2
  · simp [applyOp, hq2]
  · simp [applyOp, hq2]
  · rfl
  · rfl
  · rfl

/-- C9: one download_file run is idempotent on the file system — a second run
with the same response leaves exactly the state of the first, and after any
successful run the destination file holds exactly the body bytes (the file is
opened with `"wb"`, so reruns overwrite rather than append). -/
theorem c9_rerun_idempotent_overwrite :
    (∀ (out : Str) (fetched : Except Str HttpResponse) (er : Except Str Unit) (fs : FS),
      runDownloadFS out fetched er (runDownloadFS out fetched er fs) =
        runDownloadFS out fetched er fs) ∧
    (∀ (out : Str) (r : HttpResponse) (er : Except Str Unit) (fs : FS),
      httpFailed r = false →
      runDownloadFS out (.ok r) er fs (outputFileOf out r) = some r.body) := by
  have hok : ∀ (out : Str) (r : HttpResponse) (er : Except Str Unit),
      httpFailed r = false → download_file out (.ok r) er = .ok (okOps out r er) := by
    intro out r er h
    simp [download_file, h]
  constructor
  · intro out fetched er fs
    unfold runDownloadFS
    cases hdf : download_file out fetched er with
    | error e => rfl
    | ok ops =>
      cases fetched with
      | error e => simp [download_file] at hdf
      | ok r =>
        have hshape := download_file_ok_shape out r er ops hdf
        subst hshape
        show execOps (execOps fs (okOps out r er)) (okOps out r er) = execOps fs (okOps out r er)
        funext q
        by_cases hq : q = outputFileOf out r
        · subst hq
          rw [execOps_okOps_at, execOps_okOps_at]
        · rw [execOps_okOps_other _ _ _ _ _ hq]
  · intro out r er fs h
    unfold runDownloadFS
    rw [hok out r er h]
    exact execOps_okOps_at out r er fs

/-- Witness for c9_rerun_idempotent_overwrite: after a run on an empty file
system the destination file holds exactly the body. -/
theorem c9_witness :
    runDownloadFS "/o".data (.ok ⟨200, "OK".data, none, "https://h/m.bin".data, some 2, [7, 8]⟩)
      (.ok ()) (fun _ => none)
      (outputFileOf "/o".data ⟨200, "OK".data, none, "https://h/m.bin".data, some 2, [7, 8]⟩) =
      some [7, 8] :=
  c9_rerun_idempotent_overwrite.2 "/o".data
    ⟨200, "OK".data, none, "https://h/m.bin".data, some 2, [7, 8]⟩ (.ok ())
    (fun _ => none) (by decide)

/-- C1: whenever the arguments parse, every model identifier of the list is
announced and attempted regardless of which other downloads raise; a download
that raises `e` only prints `ERROR downloading model {id}: {e}`; and the
process exit status is 0. -/
theorem c1_batch_never_aborts_and_exits_zero :
    ∀ (argv : List Str) (w : World) (args : Args),
      get_args argv = some args →
      (∀ mid ∈ splitIds args.model_id,
        Op.printAnnounce mid ∈ (mainOps argv w).getD [] ∧
        (∀ e, download_file args.output_path (w.fetch mid) (w.extractRes mid) = .error e →
          Op.printError mid e ∈ (mainOps argv w).getD [])) ∧
      mainExitCode argv w = 0 := by
  intro argv w args h
  have hmain : mainOps argv w = some ((mainTokenAndOps w).2 ++
      (splitIds args.model_id).flatMap (batchStep w args.output_path)) := by
    unfold mainOps
    rw [h]
  constructor
  · intro mid hmid
    have hsub : ∀ op ∈ batchStep w args.output_path mid, op ∈ (mainOps argv w).getD [] := by
      intro op hop
      rw [hmain]
      apply List.mem_append_right
      rw [List.mem_flatMap]
      exact ⟨mid, hmid, hop⟩
    constructor
    · apply hsub
      unfold batchStep
      exact List.mem_cons_self _ _
    · intro e he
      apply hsub
      unfold batchStep
      rw [he]
      simp
  · unfold mainExitCode
    rw [hmain]

/-- A concrete world for the C1 witness: the second model's fetch returns
HTTP 404, the two others succeed. -/
def c1World : World where
  env := some "tok".data
  tokenFileRead := none
  promptInput := "typed".data
  fetch := fun mid =>
    if mid = "2".data then .ok ⟨404, "Not Found".data, none, "https://h/x".data, none, []⟩
    else .ok ⟨200, "OK".data, none, "https://h/m.bin".data, some 1, [9]⟩
  extractRes := fun _ => .ok ()
  home := "/root".data

/-- Witness for c1_batch_never_aborts_and_exits_zero: three identifiers, the
second fails with an HTTP error, the third is still attempted, exit status 0. -/
theorem c1_witness :
    Op.printAnnounce "3".data ∈ (mainOps ["1,2,3".data, "/out".data] c1World).getD [] ∧
    Op.printError "2".data "HTTP Error 404: Not Found".data ∈
      (mainOps ["1,2,3".data, "/out".data] c1World).getD [] ∧
    mainExitCode ["1,2,3".data, "/out".data] c1World = 0 := by
  have h := c1_batch_never_aborts_and_exits_zero ["1,2,3".data, "/out".data] c1World
    ⟨"1,2,3".data, "/out".data⟩ (by decide)
  exact ⟨(h.1 "3".data (by decide)).1,
         (h.1 "2".data (by decide)).2 "HTTP Error 404: Not Found".data (by decide),
         h.2⟩

/-- C10: an environment token set to the empty string is treated as absent —
get_token behaves exactly as when the variable is unset (file fallback, and
`none` when the file read fails), and main() then prompts instead of using the
empty environment value. -/
theorem c10_empty_env_token_is_absent :
    (∀ fileRead : Option Str, get_token (some []) fileRead = get_token none fileRead) ∧
    get_token (some []) none = none ∧
    (∀ w : World, w.env = some [] → w.tokenFileRead = none →
      mainTokenAndOps w = (w.promptInput, promptOps w.home w.promptInput)) := by
  refine ⟨fun f => rfl, rfl, ?_⟩
  intro w h1 h2
  unfold mainTokenAndOps
  rw [h1, h2]
  rfl

/-- A concrete world for the C10 witness: empty environment token, unreadable
token file. -/
def c10World : World where
  env := some []
  tokenFileRead := none
  promptInput := "typed".data
  fetch := fun _ => .error "conn".data
  extractRes := fun _ => .ok ()
  home := "/root".data

/-- Witness for c10_empty_env_token_is_absent: main prompts and stores. -/
theorem c10_witness :
    mainTokenAndOps c10World = ("typed".data, promptOps "/root".data "typed".data) :=
  c10_empty_env_token_is_absent.2.2 c10World rfl rfl

/-- C4 counterexample: with the token environment variable set (to the empty
string) and a readable token file, get_token returns the file token, not the
environment value — so "returns the environment variable's value whenever the
environment variable is set" fails as stated. -/
theorem c4_counterexample :
    get_token (some []) (some "filetok".data) = some "filetok".data ∧
    get_token (some []) (some "filetok".data) ≠ some [] := by
  exact ⟨rfl, by decide⟩

/-- C4 (amended): get_token returns the environment value whenever the
variable is set to a non-empty string (an empty value is treated as absent);
otherwise the whitespace-stripped content of the token file when it is
readable; otherwise `none` — a file-read error is "no token", not fatal — and
main() then falls back to prompting. -/
theorem c4_token_resolution_amended :
    (∀ (t : Str) (f : Option Str), t ≠ [] → get_token (some t) f = some t) ∧
    (∀ (env : Option Str) (c : Str), env = none ∨ env = some [] →
      get_token env (some c) = some (pyStripP pyIsSpace c)) ∧
    (∀ env : Option Str, env = none ∨ env = some [] → get_token env none = none) ∧
    (∀ w : World, get_token w.env w.tokenFileRead = none →
      (mainTokenAndOps w).1 = w.promptInput) := by
  refine ⟨?_, ?_, ?_, ?_⟩
  · intro t f ht
    cases t with
    | nil => exact absurd rfl ht
    | cons x xs => rfl
  · intro env c h
    rcases h with h | h <;> subst h <;> rfl
  · intro env h
    rcases h with h | h <;> subst h <;> rfl
  · intro w h
    unfold mainTokenAndOps
    rw [h]
    rfl

/-- A concrete world for the C4 witness: no environment token, unreadable
token file — main prompts. -/
def c4World : World where
  env := none
  tokenFileRead := none
  promptInput := "typed".data
  fetch := fun _ => .error "conn".data
  extractRes := fun _ => .ok ()
  home := "/root".data

/-- Witness for c4_token_resolution_amended at concrete inputs. -/
theorem c4_witness :
    get_token (some "envtok".data) (some "filetok".data) = some "envtok".data ∧
    get_token none (some " filetok\n".data) = some (pyStripP pyIsSpace " filetok\n".data) ∧
    get_token none none = none ∧
    (mainTokenAndOps c4World).1 = "typed".data := by
  exact ⟨c4_token_resolution_amended.1 "envtok".data (some "filetok".data) (by decide),
         c4_token_resolution_amended.2.1 none " filetok\n".data (Or.inl rfl),
         c4_token_resolution_amended.2.2.1 none (Or.inl rfl),
         c4_token_resolution_amended.2.2.2 c4World rfl⟩

/-- C5 counterexample: passing `--no-extract` after the two positional
arguments is an argparse parse error (the parser of get_args declares no such
option), not an accepted flag. -/
theorem c5_counterexample :
    get_args ["46846".data, "/out".data, "--no-extract".data] = none ∧
    mainExitCode ["46846".data, "/out".data, "--no-extract".data] c4World = 2 := by
  constructor <;> decide

/-- C5 (amended): the CLI accepts exactly the two positional arguments and no
`--no-extract` option — any flag-like argv token makes argparse fail (exit 2)
— and the extraction of a `.zip` destination file in a successful
download_file run is unconditional: no input can disable the attempt. -/
theorem c5_no_disable_flag_extraction_unconditional :
    (∀ argv : List Str, (∃ a ∈ argv, looksLikeOption a = true) →
      get_args argv = none ∧ ∀ w : World, mainExitCode argv w = 2) ∧
    (∀ m o : Str, looksLikeOption m = false → looksLikeOption o = false →
      get_args [m, o] = some ⟨m, o⟩) ∧
    (∀ (out : Str) (r : HttpResponse) (er : Except Str Unit) (ops : List Op),
      download_file out (.ok r) er = .ok ops →
      endsWithZip (outputFileOf out r) = true →
      Op.tryExtract (outputFileOf out r) ∈ ops) := by
  refine ⟨?_, ?_, ?_⟩
  · rintro argv ⟨a, ha, hopt⟩
    have hga : get_args argv = none := by
      unfold get_args
      rw [if_neg]
      intro hall
      have h2 := List.all_eq_true.mp hall a ha
      rw [hopt] at h2
      exact absurd h2 (by decide)
    refine ⟨hga, fun w => ?_⟩
    unfold mainExitCode mainOps
    rw [hga]
  · intro m o hm ho
    unfold get_args
    rw [if_pos (by simp [hm, ho])]
  · intro out r er ops h hzip
    rw [download_file_ok_shape out r er ops h]
    unfold okOps
    apply List.mem_cons_of_mem
    apply List.mem_append_right
    unfold zipOps
    rw [if_pos hzip]
    exact List.mem_cons_self _ _

/-- Witness for c5_no_disable_flag_extraction_unconditional at concrete
inputs, a `--no-extract` argv among them. -/
theorem c5_witness :
    (get_args ["46846".data, "/out".data, "--no-extract".data] = none ∧
     ∀ w : World, mainExitCode ["46846".data, "/out".data, "--no-extract".data] w = 2) ∧
    get_args ["46846".data, "/out".data] = some ⟨"46846".data, "/out".data⟩ ∧
    Op.tryExtract (outputFileOf "/o".data ⟨200, "OK".data, none, "https://h/x.zip".data, some 1, [9]⟩) ∈
      okOps "/o".data ⟨200, "OK".data, none, "https://h/x.zip".data, some 1, [9]⟩ (.ok ()) := by
  refine ⟨?_, ?_, ?_⟩
  · exact c5_no_disable_flag_extraction_unconditional.1
      ["46846".data, "/out".data, "--no-extract".data]
      ⟨"--no-extract".data, by decide, by decide⟩
  · exact c5_no_disable_flag_extraction_unconditional.2.1 "46846".data "/out".data
      (by decide) (by decide)
  · exact c5_no_disable_flag_extraction_unconditional.2.2 "/o".data
      ⟨200, "OK".data, none, "https://h/x.zip".data, some 1, [9]⟩ (.ok ())
      (okOps "/o".data ⟨200, "OK".data, none, "https://h/x.zip".data, some 1, [9]⟩ (.ok ()))
      (by decide) (by decide)

/-- Every event of one batch-loop iteration: the announcement, a caught-error
print, or (on a non-raising download) an event of the download_file trace. -/
theorem batchStep_mem (w : World) (out mid : Str) (op : Op)
    (h : op ∈ batchStep w out mid) :
    op = Op.printAnnounce mid ∨ (∃ e, op = Op.printError mid e) ∨
    (∃ r, w.fetch mid = .ok r ∧ op ∈ okOps out r (w.extractRes mid)) := by
  unfold batchStep at h
  rcases List.mem_cons.mp h with h1 | h1
  · exact Or.inl h1
  · cases hf : w.fetch mid with
    | error e =>
      rw [hf] at h1
      simp only [download_file] at h1
      right; left
      exact ⟨e, by simpa using h1⟩
    | ok r =>
      rw [hf] at h1
      by_cases hst : httpFailed r = true
      · simp only [download_file, if_pos hst] at h1
        right; left
        exact ⟨httpErrMsg r, by simpa using h1⟩
      · simp only [download_file, if_neg hst] at h1
        exact Or.inr (Or.inr ⟨r, rfl, h1⟩)

/-- C6 (amended): main never creates (or checks) the output directory; the
only directory creation in any run is store_token's creation of the
token-file directory when the token prompt fires. -/
theorem c6_no_output_directory_creation :
    ∀ (argv : List Str) (w : World) (ops : List Op) (p : Str),
      mainOps argv w = some ops →
      Op.mkdirParents p ∈ ops → p = TOKEN_DIR w.home := by
  intro argv w ops p hmain hmem
  unfold mainOps at hmain
  cases hga : get_args argv with
  | none =>
    rw [hga] at hmain
    simp at hmain
  | some args =>
    rw [hga] at hmain
    have hops : ops = (mainTokenAndOps w).2 ++
        (splitIds args.model_id).flatMap (batchStep w args.output_path) :=
      (Option.some.inj hmain).symm
    subst hops
    rcases List.mem_append.mp hmem with h1 | h1
    · unfold mainTokenAndOps at h1
      by_cases ht : strTruthy (get_token w.env w.tokenFileRead) = true
      · rw [if_pos ht] at h1
        simp at h1
      · rw [if_neg ht] at h1
        simp only [promptOps] at h1
        rcases List.mem_cons.mp h1 with h2 | h2
        · simp at h2
        · rcases List.mem_cons.mp h2 with h3 | h3
          · exact (Op.mkdirParents.inj h3)
          · simp at h3
    · rw [List.mem_flatMap] at h1
      obtain ⟨mid, _, hop⟩ := h1
      rcases batchStep_mem w args.output_path mid _ hop with h2 | ⟨e, h2⟩ | ⟨r, _, h2⟩
      · simp at h2
      · simp at h2
      · rcases okOps_mem _ _ _ _ h2 with h3 | ⟨ch, h3⟩ | h3 | h3 | ⟨e, h3⟩ <;> simp at h3

/-- A concrete world for the C6 counterexample: a token is present in the
environment, so no prompt happens and the run contains no mkdir at all. -/
def c6World : World where
  env := some "tok".data
  tokenFileRead := none
  promptInput := "typed".data
  fetch := fun _ => .ok ⟨200, "OK".data, none, "https://h/m.bin".data, some 1, [9]⟩
  extractRes := fun _ => .ok ()
  home := "/root".data

/-- C6 counterexample: a run that parses its arguments and attempts a
download contains no directory-creation event whatsoever — main does not
ensure that the output directory exists. -/
theorem c6_counterexample :
    hasMkdir ((mainOps ["1".data, "/out".data] c6World).getD []) = false ∧
    Op.printAnnounce "1".data ∈ (mainOps ["1".data, "/out".data] c6World).getD [] ∧
    Op.openWrite "/out/m.bin".data ∈ (mainOps ["1".data, "/out".data] c6World).getD [] := by
  refine ⟨by decide, by decide, by decide⟩

/-- A concrete world for the C6 witness: no token anywhere, so the prompt
fires and the only mkdir is the token directory's. -/
def c6PromptWorld : World where
  env := none
  tokenFileRead := none
  promptInput := "typed".data
  fetch := fun _ => .error "conn".data
  extractRes := fun _ => .ok ()
  home := "/root".data

/-- Witness for c6_no_output_directory_creation: the one mkdir of a prompting
run is the token directory. -/
theorem c6_witness :
    Op.mkdirParents (TOKEN_DIR "/root".data) ∈
      (mainOps ["1".data, "/out".data] c6PromptWorld).getD [] ∧
    TOKEN_DIR "/root".data = TOKEN_DIR c6PromptWorld.home :=
  ⟨by decide,
   c6_no_output_directory_creation ["1".data, "/out".data] c6PromptWorld
     ((mainOps ["1".data, "/out".data] c6PromptWorld).getD []) (TOKEN_DIR "/root".data)
     (by decide) (by decide)⟩

/- Lemmas relating the Python split-based URL fallback of lines 87-88 to the
specification's description (segment after the last slash, query removed). -/

theorem splitChar_ne_nil (c : Char) (s : Str) : splitChar c s ≠ [] := by
  cases s with
  | nil => simp [splitChar]
  | cons x xs =>
    unfold splitChar
    by_cases h : x = c
    · simp [h]
    · rw [if_neg h]
      cases hr : splitChar c xs <;> simp

theorem splitChar_headD (c : Char) (s : Str) :
    (splitChar c s).headD [] = s.takeWhile (fun x => x != c) := by
  induction s with
  | nil => rfl
  | cons x xs ih =>
    unfold splitChar
    by_cases h : x = c
    · subst h
      rw [if_pos rfl]
      simp [List.takeWhile_cons]
    · rw [if_neg h]
      cases hr : splitChar c xs with
      | nil => exact absurd hr (splitChar_ne_nil c xs)
      | cons hd tl =>
        rw [hr] at ih
        have hx : (x != c) = true := by simp [h]
        simp only [List.headD_cons] at ih ⊢
        rw [List.takeWhile_cons, if_pos hx, ← ih]

theorem splitChar_not_mem (c : Char) (s : Str) (h : c ∉ s) : splitChar c s = [s] := by
  induction s with
  | nil => rfl
  | cons x xs ih =>
    unfold splitChar
    have hx : ¬ x = c := by
      intro he
      exact h (by rw [he]; exact List.mem_cons_self c xs)
    rw [if_neg hx, ih (fun hm => h (List.mem_cons_of_mem _ hm))]

theorem afterLast_not_mem (c : Char) (s : Str) (h : c ∉ s) : afterLast c s = s := by
  cases s with
  | nil => rfl
  | cons x xs =>
    unfold afterLast
    have h1 : c ∉ xs := fun hm => h (List.mem_cons_of_mem _ hm)
    have h2 : ¬ x = c := by
      intro he
      exact h (by rw [he]; exact List.mem_cons_self c xs)
    rw [if_neg h1, if_neg h2]

theorem splitChar_mem_two_le (c : Char) (s : Str) (h : c ∈ s) :
    2 ≤ (splitChar c s).length := by
  induction s with
  | nil => simp at h
  | cons x xs ih =>
    unfold splitChar
    by_cases hx : x = c
    · rw [if_pos hx]
      have h1 : 0 < (splitChar c xs).length :=
        List.length_pos.mpr (splitChar_ne_nil c xs)
      simp only [List.length_cons]
      omega
    · rw [if_neg hx]
      have hmem : c ∈ xs := by
        rcases List.mem_cons.mp h with h1 | h1
        · exact absurd h1.symm hx
        · exact h1
      cases hr : splitChar c xs with
      | nil => exact absurd hr (splitChar_ne_nil c xs)
      | cons hd tl =>
        rw [hr] at ih
        have := ih hmem
        simp only [List.length_cons] at *
        omega

theorem getLastD_irrel {α : Type} (l : List α) (d1 d2 : α) (h : l ≠ []) :
    l.getLastD d1 = l.getLastD d2 := by
  cases l with
  | nil => exact absurd rfl h
  | cons a t => rw [List.getLastD_cons, List.getLastD_cons]

theorem splitChar_getLastD (c : Char) (s : Str) :
    (splitChar c s).getLastD [] = afterLast c s := by
  induction s with
  | nil => rfl
  | cons x xs ih =>
    unfold splitChar afterLast
    by_cases hmem : c ∈ xs
    · rw [if_pos hmem]
      by_cases hx : x = c
      · rw [if_pos hx, List.getLastD_cons, ← ih]
      · rw [if_neg hx]
        cases hr : splitChar c xs with
        | nil => exact absurd hr (splitChar_ne_nil c xs)
        | cons hd tl =>
          have htl : tl ≠ [] := by
            have h2 := splitChar_mem_two_le c xs hmem
            rw [hr] at h2
            simp only [List.length_cons] at h2
            intro he
            rw [he] at h2
            simp at h2
          rw [hr] at ih
          rw [List.getLastD_cons, ← ih, List.getLastD_cons]
          exact getLastD_irrel _ _ _ htl
    · rw [if_neg hmem, splitChar_not_mem c xs hmem]
      by_cases hx : x = c
      · simp only [if_pos hx, List.getLastD_cons, List.getLastD_nil]
      · simp only [if_neg hx, List.getLastD_cons, List.getLastD_nil]

/-- The URL fallback of lines 87-88 computes exactly the specification's
"last path segment of the final URL with any query string removed". -/
theorem fallback_eq_spec (url : Str) :
    (splitChar '?' ((splitChar '/' url).getLastD [])).headD [] = specURLFilename url := by
  rw [splitChar_getLastD, splitChar_headD, specURLFilename]

/- Lemmas for the Content-Disposition branch of lines 83-85:
`cd.split("filename=")[1].strip('"')`. -/

theorem isPrefixOf_append_self (p t : Str) : p.isPrefixOf (p ++ t) = true := by
  induction p with
  | nil => cases t <;> rfl
  | cons x xs ih => simp [List.isPrefixOf, ih]

theorem containsSub_here (sep t : Str) : containsSub sep (sep ++ t) = true := by
  cases hs : sep ++ t with
  | nil =>
    have hsep : sep = [] := (List.append_eq_nil.mp hs).1
    subst hsep
    rfl
  | cons x xs =>
    unfold containsSub
    rw [← hs, isPrefixOf_append_self]
    simp

theorem containsSub_later (sep pre t : Str) :
    containsSub sep (pre ++ (sep ++ t)) = true := by
  induction pre with
  | nil => simpa using containsSub_here sep t
  | cons x xs ih =>
    simp only [List.cons_append]
    unfold containsSub
    rw [ih]
    simp

theorem splitSubAux_not_contains (sep : Str) :
    ∀ (fuel : Nat) (s : Str), containsSub sep s = false → s.length ≤ fuel →
      splitSubAux sep fuel s = [s] := by
  intro fuel
  induction fuel with
  | zero =>
    intro s h hlen
    cases s with
    | nil => rfl
    | cons x xs => simp at hlen
  | succ fuel ih =>
    intro s h hlen
    cases s with
    | nil => rfl
    | cons x xs =>
      unfold containsSub at h
      rw [Bool.or_eq_false_iff] at h
      obtain ⟨h1, h2⟩ := h
      unfold splitSubAux
      rw [if_neg (by simp [h1])]
      rw [ih xs h2 (by simpa using Nat.le_of_succ_le_succ hlen)]

theorem splitSub_first_occ (sep tail : Str) (hsep : sep ≠ [])
    (htail : containsSub sep tail = false) :
    ∀ (pre : Str) (fuel : Nat),
      (∀ k, k < pre.length → sep.isPrefixOf ((pre ++ (sep ++ tail)).drop k) = false) →
      (pre ++ (sep ++ tail)).length ≤ fuel →
      splitSubAux sep fuel (pre ++ (sep ++ tail)) = [pre, tail] := by
  obtain ⟨c, cs, rfl⟩ := List.exists_cons_of_ne_nil hsep
  intro pre
  induction pre with
  | nil =>
    intro fuel hpre hfuel
    simp only [List.nil_append] at *
    cases fuel with
    | zero => simp at hfuel
    | succ f =>
      simp only [List.cons_append] at *
      unfold splitSubAux
      rw [if_pos (by simpa using isPrefixOf_append_self (c :: cs) tail)]
      have hdrop : (c :: (cs ++ tail)).drop (c :: cs).length = tail := by
        simp only [List.length_cons, List.drop_succ_cons]
        exact List.drop_left cs tail
      rw [hdrop]
      have hf : tail.length ≤ f := by
        simp only [List.length_cons, List.length_append] at hfuel
        omega
      rw [splitSubAux_not_contains _ _ _ htail hf]
  | cons x pre ih =>
    intro fuel hpre hfuel
    cases fuel with
    | zero => simp at hfuel
    | succ f =>
      simp only [List.cons_append] at *
      have h0 := hpre 0 (by simp)
      simp only [List.drop_zero] at h0
      unfold splitSubAux
      rw [if_neg (by simp [h0])]
      have hpre2 : ∀ k, k < pre.length →
          (c :: cs).isPrefixOf ((pre ++ ((c :: cs) ++ tail)).drop k) = false := by
        intro k hk
        have := hpre (k + 1) (by simpa using Nat.succ_lt_succ hk)
        simpa [List.drop_succ_cons, List.cons_append] using this
      have hfuel2 : (pre ++ ((c :: cs) ++ tail)).length ≤ f := by
        simp only [List.length_cons, List.length_append] at *
        omega
      rw [ih f (by simpa [List.cons_append] using hpre2) (by simpa [List.cons_append] using hfuel2)]

theorem pyStrip_quote (v : Str) (hv : v ≠ []) (hq : '"' ∉ v) :
    pyStripP (fun c => c = '"') ('"' :: (v ++ ['"'])) = v := by
  obtain ⟨a, v', rfl⟩ := List.exists_cons_of_ne_nil hv
  have hmemq : ∀ b ∈ a :: v', (decide (b = '"')) = false := by
    intro b hb
    simp only [decide_eq_false_iff_not]
    intro he
    rw [he] at hb
    exact hq hb
  unfold pyStripP
  have step1 : List.dropWhile (fun c => decide (c = '"')) ('"' :: ((a :: v') ++ ['"'])) =
      (a :: v') ++ ['"'] := by
    rw [List.dropWhile_cons]
    simp only [decide_True, if_true]
    rw [List.cons_append, List.dropWhile_cons, hmemq a (List.mem_cons_self a v')]
    simp
  rw [step1, List.reverse_append]
  have step2 : (['"'] : Str).reverse ++ (a :: v').reverse = '"' :: (a :: v').reverse := rfl
  rw [step2, List.dropWhile_cons]
  simp only [decide_True, if_true]
  cases hrev : (a :: v').reverse with
  | nil => simp at hrev
  | cons b t =>
    have hb : b ∈ a :: v' := by
      rw [← List.mem_reverse, hrev]
      exact List.mem_cons_self b t
    rw [List.dropWhile_cons, hmemq b hb]
    simp only [Bool.false_eq_true, if_false]
    rw [← hrev, List.reverse_reverse]

/-- The Content-Disposition branch on a header of the shape
`<pre>filename="<v>"`: when the first `filename=` occurrence is the announced
one, the quoted value contains no further `filename=` and no quote, the
extracted filename is exactly the parameter value `v`. -/
theorem extractCD_quoted (pre v : Str) (hv : v ≠ []) (hq : '"' ∉ v)
    (htail : containsSub filenameKey ('"' :: (v ++ ['"'])) = false)
    (hpre : ∀ k, k < pre.length →
      filenameKey.isPrefixOf ((pre ++ (filenameKey ++ ('"' :: (v ++ ['"'])))).drop k) = false) :
    extractCDFilename (some (pre ++ (filenameKey ++ ('"' :: (v ++ ['"']))))) = some v := by
  have hfk : filenameKey ≠ [] := by decide
  have hcontains : containsSub filenameKey
      (pre ++ (filenameKey ++ ('"' :: (v ++ ['"'])))) = true :=
    containsSub_later _ _ _
  have hcdne : pre ++ (filenameKey ++ ('"' :: (v ++ ['"']))) ≠ [] := by
    intro h
    exact hfk (List.append_eq_nil.mp (List.append_eq_nil.mp h).2).1
  have hne : (pre ++ (filenameKey ++ ('"' :: (v ++ ['"'])))).isEmpty = false := by
    cases hcd : pre ++ (filenameKey ++ ('"' :: (v ++ ['"']))) with
    | nil => exact absurd hcd hcdne
    | cons a l => rfl
  have hsplit : pySplitSub filenameKey (pre ++ (filenameKey ++ ('"' :: (v ++ ['"'])))) =
      [pre, '"' :: (v ++ ['"'])] := by
    unfold pySplitSub
    exact splitSub_first_occ filenameKey ('"' :: (v ++ ['"'])) hfk htail pre _ hpre le_rfl
  simp only [extractCDFilename]
  rw [hne, hcontains]
  simp only [Bool.not_false, Bool.and_true, if_true]
  rw [hsplit]
  simp only [List.getD]
  rw [show ([pre, '"' :: (v ++ ['"'])].get? 1).getD [] = '"' :: (v ++ ['"']) from rfl]
  rw [pyStrip_quote v hv hq]
  cases hv2 : v with
  | nil => exact absurd hv2 hv
  | cons a t => rfl

/-- C2: filename resolution of download_file.  (a) For a Content-Disposition
header of the shape `<pre>filename="<v>"` — `filename=` occurring first at the
announced place, the value non-empty, quote-free and not containing another
`filename=` — the destination filename is the parameter value `v`, whatever
the request URL.  (b) With no Content-Disposition header (and likewise with
one that has no `filename=`), the filename is the last path segment of the
final post-redirect URL with any query string removed. -/
theorem c2_filename_resolution :
    (∀ (pre v url : Str), v ≠ [] → '"' ∉ v →
      containsSub filenameKey ('"' :: (v ++ ['"'])) = false →
      (∀ k, k < pre.length →
        filenameKey.isPrefixOf ((pre ++ (filenameKey ++ ('"' :: (v ++ ['"'])))).drop k) = false) →
      resolveFilename (some (pre ++ (filenameKey ++ ('"' :: (v ++ ['"']))))) url = v) ∧
    (∀ url : Str, resolveFilename none url = specURLFilename url) ∧
    (∀ (s url : Str), containsSub filenameKey s = false →
      resolveFilename (some s) url = specURLFilename url) := by
  refine ⟨?_, ?_, ?_⟩
  · intro pre v url hv hq htail hpre
    unfold resolveFilename
    rw [extractCD_quoted pre v hv hq htail hpre]
  · intro url
    unfold resolveFilename
    exact fallback_eq_spec url
  · intro s url h
    unfold resolveFilename
    have hcd : extractCDFilename (some s) = none := by
      simp only [extractCDFilename, h]
      simp
    rw [hcd]
    exact fallback_eq_spec url

/-- Witness for c2_filename_resolution: the specification's own example header
`attachment; filename="x.zip"`, a header without `filename=`, and the bare-URL
fallback. -/
theorem c2_witness :
    resolveFilename (some "attachment; filename=\"x.zip\"".data)
      "https://civitai.com/api/download/models/46846".data = "x.zip".data ∧
    resolveFilename none "https://cdn.example.com/a/b/model.safetensors?Expires=1".data =
      specURLFilename "https://cdn.example.com/a/b/model.safetensors?Expires=1".data ∧
    resolveFilename (some "inline".data) "https://h/a/f.bin".data =
      specURLFilename "https://h/a/f.bin".data := by
  refine ⟨?_, c2_filename_resolution.2.1 _, c2_filename_resolution.2.2 "inline".data _ (by decide)⟩
  have hcd : "attachment; filename=\"x.zip\"".data =
      "attachment; ".data ++ (filenameKey ++ ('"' :: ("x.zip".data ++ ['"']))) := by decide
  rw [hcd]
  exact c2_filename_resolution.1 "attachment; ".data "x.zip".data
    "https://civitai.com/api/download/models/46846".data
    (by decide) (by decide) (by decide) (by decide)
